import Mathlib

/-!
Shallow embedding of the `mycat` family of file-to-stdout copy programs
(`src/mycat1.c` … `src/mycat6.c`): the block-size advisors, the page-aligned
allocator `align_alloc`/`align_free`, and the read/write copy loop together
with its resource handling in `main`.

Machine integers are modelled as `Nat`/`Int`; `uintptr_t` arithmetic is
taken modulo `2 ^ 64`.  Fallible system calls are driven by explicit
oracles (`Option` results and result schedules), so that every run of the
C program corresponds to one choice of oracle values.
-/

/-- Width of a pointer in bytes: `sizeof(void*)` on the 64-bit target. -/
def ptrBytes : Nat := 8

/-- Modulus of `uintptr_t` arithmetic (64-bit addresses). -/
def uintptrMod : Nat := 2 ^ 64

/-- Embeds `get_system_page_size` (mycat4.c lines 12-19, repeated verbatim in
mycat5.c and mycat6.c).  `sysconfRes = none` models `sysconf(_SC_PAGESIZE)`
returning `-1`; the function then emits a warning and falls back to 4096,
otherwise it returns the queried value.  The Boolean component records
whether the warning `perror` was emitted. -/
def get_system_page_size (sysconfRes : Option Nat) : Nat × Bool :=
  match sysconfRes with
  | none => (4096, true)
  | some page_size => (page_size, false)

/-- Embeds `io_blocksize` of mycat1.c implicitly: the naive variant reads one
byte at a time (`char buffer[1]`). -/
def io_blocksize1 : Nat := 1

/-- Embeds `io_blocksize` of mycat2.c (lines 8-16): the system page size, or
4096 with a warning when the `sysconf` query fails. -/
def io_blocksize2 (sysconfRes : Option Nat) : Nat :=
  match sysconfRes with
  | none => 4096
  | some page_size => page_size

/-- Embeds `io_blocksize` of mycat4.c (lines 24-55): prefer the filesystem's
reported `st_blksize` when `fstat` succeeds and the report is positive, fall
back to the page size otherwise, and finally clamp the result upward to at
least the page size.  `fstatRes = none` models `fstat` failing; `some b`
models success with `st_blksize = b` (a C `long`, hence `Int`). -/
def io_blocksize4 (sysconfRes : Option Nat) (fstatRes : Option Int) : Nat :=
  let page_size := (get_system_page_size sysconfRes).1
  let fs_block_size : Int :=
    match fstatRes with
    | some blksize => blksize
    | none => 0
  let recommended_size : Nat :=
    if 0 < fs_block_size then fs_block_size.toNat else page_size
  if recommended_size < page_size then page_size else recommended_size

/-- Embeds `OPTIMAL_BUFFER_SIZE` of mycat5.c line 12 (same in mycat6.c). -/
def OPTIMAL_BUFFER_SIZE : Nat := 2 * 1024 * 1024

/-- Embeds `io_blocksize` of mycat5.c (lines 29-31, identical in mycat6.c):
the fixed experimentally chosen buffer size. -/
def io_blocksize5 : Nat := OPTIMAL_BUFFER_SIZE

/-- Bitwise complement of `page_size - 1` computed in 64-bit `uintptr_t`
arithmetic: `~(page_size - 1) = (2^64 - 1) - (page_size - 1)`. -/
def notMask (page_size : Nat) : Nat := (uintptrMod - 1) - (page_size - 1)

/-- Embeds the address computation of `align_alloc` (mycat4.c line 77,
mycat5.c line 60, mycat6.c line 46):
`((uintptr_t)(original_ptr + sizeof(void*)) + page_size - 1) & ~(page_size - 1)`,
where `rawStart` models the pointer returned by `malloc`. -/
def align_alloc_addr (page_size rawStart : Nat) : Nat :=
  ((rawStart + ptrBytes + page_size - 1) % uintptrMod) &&& notMask page_size

/-- Size of the raw allocation requested by `align_alloc`:
`size + page_size - 1 + sizeof(void*)` (mycat4.c line 68, mycat5.c line 46). -/
def align_alloc_rawSize (page_size size : Nat) : Nat :=
  size + page_size - 1 + ptrBytes

/-- Embeds the successful path of `align_alloc` (mycat4.c lines 60-85,
mycat5.c lines 37-69): given the `malloc` result `rawStart`, compute the
aligned pointer and stash `rawStart` in the word-granular store at address
`aligned_ptr - sizeof(void*)`.  Returns the aligned pointer and the updated
store (the store maps a slot address to the 64-bit word held there). -/
def align_alloc (page_size rawStart : Nat) (store : Nat → Option Nat) :
    Nat × (Nat → Option Nat) :=
  let aligned_ptr := align_alloc_addr page_size rawStart
  (aligned_ptr,
   fun a => if a = aligned_ptr - ptrBytes then some rawStart else store a)

/-- Embeds `align_free` (mycat4.c lines 89-96, mycat5.c lines 73-81): `none`
when no `free` call happens (null pointer argument), `some p` when `free(p)`
is called with the pointer `p` read back from the stash slot; a stash slot
never written is modelled by the store returning `none` there. -/
def align_free (ptr : Nat) (store : Nat → Option Nat) : Option Nat :=
  if ptr = 0 then none
  else store (ptr - ptrBytes)

/-- Observable events of a run: the system calls on the data path and the
resource-management calls of `main`. -/
inductive Ev : Type
  | eread (res : Int)
  | ewrite (req res : Int)
  | eopen
  | ealloc
  | eclose
  | efree
  | efadv (ok : Bool)
  deriving DecidableEq

/-- Result of one `read` call, as scheduled by the environment: `bytes n`
models `read` returning `n ≥ 0`, `rerr` models `read` returning `-1`. -/
inductive ReadRes : Type
  | bytes (n : Nat)
  | rerr
  deriving DecidableEq

/-- How the copy loop ended.  `eof`, `readErr` and `writeErr` are the three
terminal states of the C loop; `starved` is a model artifact marking an
exhausted read schedule, never reached under an adequate schedule. -/
inductive LoopEnd : Type
  | eof
  | readErr
  | writeErr
  | starved
  deriving DecidableEq

/-- Result of a copy-loop run: the bytes delivered to standard output, the
concatenation of the chunks successfully read, the event trace, and the
terminal state. -/
structure LoopOut where
  out : List Nat
  readBytes : List Nat
  events : List Ev
  stop : LoopEnd
  deriving DecidableEq

/-- Embeds the copy loop of `main` (mycat5.c lines 116-129; the same loop
appears in mycat1.c 31-42, mycat2.c 52-65, mycat4.c 131-143, mycat6.c
112-120): `while ((bytes_read = read(fd, buffer, buffer_size)) > 0) {
bytes_written = write(STDOUT, buffer, bytes_read); if (bytes_written !=
bytes_read) fail; }` followed by the `bytes_read == -1` check.  `rem` is the
part of the file not yet read; `rp` schedules the result of each successive
`read` call and `wp` the result of each successive `write` call (an
exhausted write schedule defaults to a full write).  A `read` returning `n`
places the next `min n |rem|` file bytes in the buffer; a `write` returning
`w` delivers the first `w` of those bytes to standard output. -/
def copyLoop (buffer_size : Nat) :
    List ReadRes → List Int → List Nat → LoopOut
  | [], _, _ => ⟨[], [], [], .starved⟩
  | .rerr :: _, _, _ => ⟨[], [], [.eread (-1)], .readErr⟩
  | .bytes 0 :: _, _, _ => ⟨[], [], [.eread 0], .eof⟩
  | .bytes (n + 1) :: rp, wp, rem =>
    let bytes_read := n + 1
    let chunk := rem.take bytes_read
    let bytes_written : Int := wp.headD (bytes_read : Int)
    if bytes_written = (bytes_read : Int) then
      let rest := copyLoop buffer_size rp wp.tail (rem.drop bytes_read)
      ⟨chunk ++ rest.out, chunk ++ rest.readBytes,
       .eread (bytes_read : Int) :: .ewrite (bytes_read : Int) bytes_written
         :: rest.events,
       rest.stop⟩
    else
      ⟨chunk.take bytes_written.toNat, chunk,
       [.eread (bytes_read : Int), .ewrite (bytes_read : Int) bytes_written],
       .writeErr⟩

/-- A read schedule obeying the POSIX contract of `read` on the file whose
unread remainder is `rem`: with buffer size `bs`, each successful read
returns at most `bs` bytes and at most what remains, returns `0` exactly at
end of file, may fail at any point, and the schedule is long enough to
drive the loop to one of its terminal states. -/
inductive ValidReads (bs : Nat) : List ReadRes → List Nat → Prop
  | eof (rp : List ReadRes) : ValidReads bs (.bytes 0 :: rp) []
  | err (rp : List ReadRes) (rem : List Nat) : ValidReads bs (.rerr :: rp) rem
  | step (n : Nat) (rp : List ReadRes) (rem : List Nat) :
      0 < n → n ≤ bs → n ≤ rem.length →
      ValidReads bs rp (rem.drop n) →
      ValidReads bs (.bytes n :: rp) rem

/-- Environment oracle for a whole `main` run: success of `open`, the
`sysconf` page-size query result, the `fstat` result, success of
`posix_fadvise`, success of the buffer allocation, the read and write
schedules, and success of `close`. -/
structure Env where
  openOk : Bool
  sysconfRes : Option Nat
  fstatRes : Option Int
  fadvOk : Bool
  allocOk : Bool
  rp : List ReadRes
  wp : List Int
  closeOk : Bool
  deriving DecidableEq

/-- Result of a `main` run: process exit code, event trace, bytes delivered
to standard output. -/
structure MainOut where
  exitCode : Nat
  events : List Ev
  out : List Nat
  deriving DecidableEq

/-- Embeds `main` of mycat5.c (lines 83-152) after the `argc` check: open the
input (failure: exit 1, nothing acquired); allocate the aligned buffer
(failure: close the input, exit 1); run the copy loop; on loop success close
then free (close failure: still free, exit 1); on read or write failure
close, free, exit 1.  `mycat4.c` and `mycat6.c` share this structure. -/
def mycat5_main (env : Env) (input : List Nat) : MainOut :=
  if env.openOk then
    let buffer_size := io_blocksize5
    if env.allocOk then
      let L := copyLoop buffer_size env.rp env.wp input
      match L.stop with
      | .eof =>
        if env.closeOk then
          ⟨0, .eopen :: .ealloc :: L.events ++ [.eclose, .efree], L.out⟩
        else
          ⟨1, .eopen :: .ealloc :: L.events ++ [.eclose, .efree], L.out⟩
      | _ => ⟨1, .eopen :: .ealloc :: L.events ++ [.eclose, .efree], L.out⟩
    else ⟨1, [.eopen, .eclose], []⟩
  else ⟨1, [], []⟩

/-- Embeds `main` of mycat6.c (lines 66-142) after the `argc` check: like
mycat5 but a `posix_fadvise(POSIX_FADV_SEQUENTIAL)` call is issued right
after the open; its failure only produces a warning event. -/
def mycat6_main (env : Env) (input : List Nat) : MainOut :=
  if env.openOk then
    let fadv := Ev.efadv env.fadvOk
    let buffer_size := io_blocksize5
    if env.allocOk then
      let L := copyLoop buffer_size env.rp env.wp input
      match L.stop with
      | .eof =>
        if env.closeOk then
          ⟨0, .eopen :: fadv :: .ealloc :: L.events ++ [.eclose, .efree], L.out⟩
        else
          ⟨1, .eopen :: fadv :: .ealloc :: L.events ++ [.eclose, .efree], L.out⟩
      | _ => ⟨1, .eopen :: fadv :: .ealloc :: L.events ++ [.eclose, .efree], L.out⟩
    else ⟨1, [.eopen, fadv, .eclose], []⟩
  else ⟨1, [], []⟩

/-- Embeds `main` of mycat2.c (lines 18-88) after the `argc` check.  Note the
order: the buffer is `malloc`ed BEFORE the file is opened (lines 36-41
before line 44), so an open failure releases the already-acquired buffer
(line 47). -/
def mycat2_main (env : Env) (input : List Nat) : MainOut :=
  let buffer_size := io_blocksize2 env.sysconfRes
  if env.allocOk then
    if env.openOk then
      let L := copyLoop buffer_size env.rp env.wp input
      match L.stop with
      | .eof =>
        if env.closeOk then
          ⟨0, .ealloc :: .eopen :: L.events ++ [.eclose, .efree], L.out⟩
        else
          ⟨1, .ealloc :: .eopen :: L.events ++ [.eclose, .efree], L.out⟩
      | _ => ⟨1, .ealloc :: .eopen :: L.events ++ [.eclose, .efree], L.out⟩
    else ⟨1, [.ealloc, .efree], []⟩
  else ⟨1, [], []⟩

/-- True when the event list performs no `write` call at all. -/
def noWrites (l : List Ev) : Bool :=
  l.all fun e =>
    match e with
    | Ev.ewrite _ _ => false
    | _ => true

/-- True when no `write` call occurs after a `read` call that returned `0`
or a negative value. -/
def noWriteAfterBadRead : List Ev → Bool
  | [] => true
  | Ev.eread r :: rest =>
    if r ≤ 0 then noWrites rest else noWriteAfterBadRead rest
  | _ :: rest => noWriteAfterBadRead rest

/-- Number of `read` calls in an event trace (loop iterations). -/
def countReads (l : List Ev) : Nat :=
  l.countP fun e =>
    match e with
    | Ev.eread _ => true
    | _ => false
theorem and_notMask_eq (k : Nat) (hk : k < 64) (x : Nat) (hx : x < uintptrMod) :
    x &&& notMask (2 ^ k) = 2 ^ k * (x / 2 ^ k) := by
  have hmask : notMask (2 ^ k) = (2 ^ (64 - k) - 1) <<< k := by
    rw [Nat.shiftLeft_eq, notMask, uintptrMod, Nat.sub_mul, one_mul, ← pow_add,
      Nat.sub_add_cancel hk.le]
    have h2 : 1 ≤ 2 ^ k := Nat.one_le_two_pow
    have h3 : 2 ^ k ≤ 2 ^ 64 := Nat.pow_le_pow_right (by norm_num) hk.le
    omega
  have hr : 2 ^ k * (x / 2 ^ k) = (x >>> k) <<< k := by
    rw [Nat.shiftRight_eq_div_pow, Nat.shiftLeft_eq, Nat.mul_comm]
  rw [hmask, hr]
  apply Nat.eq_of_testBit_eq
  intro i
  rw [Nat.testBit_land, Nat.testBit_shiftLeft, Nat.testBit_shiftLeft,
    Nat.testBit_shiftRight, Nat.testBit_two_pow_sub_one]
  by_cases hik : k ≤ i
  · by_cases hi64 : i < 64
    · have h1 : i - k < 64 - k := by omega
      have h2 : k + (i - k) = i := by omega
      simp [ge_iff_le, hik, h1, h2]
    · have hxb : x.testBit i = false := by
        apply Nat.testBit_eq_false_of_lt
        calc x < uintptrMod := hx
          _ ≤ 2 ^ i := by
            rw [uintptrMod]
            exact Nat.pow_le_pow_right (by norm_num) (by omega)
      have h1 : ¬ (i - k < 64 - k) := by omega
      simp [ge_iff_le, hik, h1, hxb]
  · simp [ge_iff_le, hik]
theorem align_alloc_addr_eq (k rawStart : Nat) (hk : k < 64)
    (hov : rawStart + ptrBytes + 2 ^ k - 1 < uintptrMod) :
    align_alloc_addr (2 ^ k) rawStart
      = 2 ^ k * ((rawStart + ptrBytes + 2 ^ k - 1) / 2 ^ k) := by
  unfold align_alloc_addr
  rw [Nat.mod_eq_of_lt hov, and_notMask_eq k hk _ hov]

theorem align_alloc_addr_mod (k rawStart : Nat) (hk : k < 64)
    (hov : rawStart + ptrBytes + 2 ^ k - 1 < uintptrMod) :
    align_alloc_addr (2 ^ k) rawStart % 2 ^ k = 0 := by
  rw [align_alloc_addr_eq k rawStart hk hov]
  exact Nat.mul_mod_right _ _

theorem align_alloc_addr_lower (k rawStart : Nat) (hk : k < 64)
    (hov : rawStart + ptrBytes + 2 ^ k - 1 < uintptrMod) :
    rawStart + ptrBytes ≤ align_alloc_addr (2 ^ k) rawStart := by
  rw [align_alloc_addr_eq k rawStart hk hov]
  have hdm := Nat.div_add_mod (rawStart + ptrBytes + 2 ^ k - 1) (2 ^ k)
  have hml : (rawStart + ptrBytes + 2 ^ k - 1) % 2 ^ k < 2 ^ k :=
    Nat.mod_lt _ (pow_pos (by norm_num) k)
  have h2 : 1 ≤ 2 ^ k := Nat.one_le_two_pow
  omega

theorem align_alloc_addr_upper (k rawStart : Nat) (hk : k < 64)
    (hov : rawStart + ptrBytes + 2 ^ k - 1 < uintptrMod) :
    align_alloc_addr (2 ^ k) rawStart ≤ rawStart + ptrBytes + 2 ^ k - 1 := by
  rw [align_alloc_addr_eq k rawStart hk hov]
  have hdm := Nat.div_add_mod (rawStart + ptrBytes + 2 ^ k - 1) (2 ^ k)
  omega

theorem copyLoop_succ (bs m : Nat) (rp : List ReadRes) (wp : List Int)
    (rem : List Nat) :
    copyLoop bs (ReadRes.bytes (m + 1) :: rp) wp rem =
      if wp.headD ((m + 1 : Nat) : Int) = ((m + 1 : Nat) : Int) then
        let rest := copyLoop bs rp wp.tail (rem.drop (m + 1))
        ⟨rem.take (m + 1) ++ rest.out, rem.take (m + 1) ++ rest.readBytes,
         Ev.eread ((m + 1 : Nat) : Int)
           :: Ev.ewrite ((m + 1 : Nat) : Int) (wp.headD ((m + 1 : Nat) : Int))
           :: rest.events,
         rest.stop⟩
      else
        ⟨(rem.take (m + 1)).take (wp.headD ((m + 1 : Nat) : Int)).toNat,
         rem.take (m + 1),
         [Ev.eread ((m + 1 : Nat) : Int),
          Ev.ewrite ((m + 1 : Nat) : Int) (wp.headD ((m + 1 : Nat) : Int))],
         LoopEnd.writeErr⟩ := rfl

theorem copyLoop_out_append (bs : Nat) (rp : List ReadRes) (wp : List Int)
    (rem : List Nat) : ∃ t, (copyLoop bs rp wp rem).out ++ t = rem := by
  induction rp generalizing wp rem with
  | nil => exact ⟨rem, rfl⟩
  | cons r rp ih =>
    cases r with
    | rerr => exact ⟨rem, rfl⟩
    | bytes n =>
      cases n with
      | zero => exact ⟨rem, rfl⟩
      | succ m =>
        rw [copyLoop_succ]
        by_cases hw : wp.headD ((m + 1 : Nat) : Int) = ((m + 1 : Nat) : Int)
        · simp only [hw, if_true]
          obtain ⟨t, ht⟩ := ih wp.tail (rem.drop (m + 1))
          refine ⟨t, ?_⟩
          rw [List.append_assoc, ht, List.take_append_drop]
        · simp only [hw, if_false]
          rw [List.take_take]
          exact ⟨_, List.take_append_drop _ _⟩

theorem copyLoop_out_eq_readBytes (bs : Nat) (rp : List ReadRes)
    (wp : List Int) (rem : List Nat)
    (h : (copyLoop bs rp wp rem).stop ≠ LoopEnd.writeErr) :
    (copyLoop bs rp wp rem).out = (copyLoop bs rp wp rem).readBytes := by
  induction rp generalizing wp rem with
  | nil => rfl
  | cons r rp ih =>
    cases r with
    | rerr => rfl
    | bytes n =>
      cases n with
      | zero => rfl
      | succ m =>
        rw [copyLoop_succ] at h ⊢
        by_cases hw : wp.headD ((m + 1 : Nat) : Int) = ((m + 1 : Nat) : Int)
        · simp only [hw, if_true] at h ⊢
          rw [ih wp.tail (rem.drop (m + 1)) h]
        · simp only [hw, if_false] at h
          exact absurd rfl h
theorem copyLoop_eof_out (bs : Nat) (rp : List ReadRes) (rem : List Nat)
    (hv : ValidReads bs rp rem) : ∀ wp : List Int,
    (copyLoop bs rp wp rem).stop = LoopEnd.eof →
    (copyLoop bs rp wp rem).out = rem := by
  induction hv with
  | eof rp => intro wp _; rfl
  | err rp rem => intro wp h; exact absurd h (by simp [copyLoop])
  | step n rp rem hn hbs hlen hv ih =>
    intro wp h
    obtain ⟨m, rfl⟩ : ∃ m, n = m + 1 := ⟨n - 1, by omega⟩
    rw [copyLoop_succ] at h ⊢
    by_cases hw : wp.headD ((m + 1 : Nat) : Int) = ((m + 1 : Nat) : Int)
    · simp only [hw, if_true] at h ⊢
      rw [ih wp.tail h, List.take_append_drop]
    · simp only [hw, if_false] at h
      exact absurd h (by simp)

theorem copyLoop_terminates_aux (bs : Nat) (rp : List ReadRes)
    (rem : List Nat) (hv : ValidReads bs rp rem) : ∀ wp : List Int,
    (copyLoop bs rp wp rem).stop ≠ LoopEnd.starved ∧
    countReads (copyLoop bs rp wp rem).events ≤ rem.length + 1 := by
  induction hv with
  | eof rp => intro wp; exact ⟨by simp [copyLoop], by simp [copyLoop, countReads]⟩
  | err rp rem => intro wp; exact ⟨by simp [copyLoop], by simp [copyLoop, countReads]⟩
  | step n rp rem hn hbs hlen hv ih =>
    intro wp
    obtain ⟨m, rfl⟩ : ∃ m, n = m + 1 := ⟨n - 1, by omega⟩
    rw [copyLoop_succ]
    by_cases hw : wp.headD ((m + 1 : Nat) : Int) = ((m + 1 : Nat) : Int)
    · simp only [hw, if_true]
      obtain ⟨ih1, ih2⟩ := ih wp.tail
      refine ⟨ih1, ?_⟩
      have hd : (List.drop (m + 1) rem).length = rem.length - (m + 1) :=
        List.length_drop _ _
      simp [countReads, List.countP_cons] at ih2 ⊢
      omega
    · simp only [hw, if_false]
      refine ⟨by simp, ?_⟩
      simp [countReads, List.countP_cons]

theorem copyLoop_noWrites_after_bad (bs : Nat) (rp : List ReadRes)
    (wp : List Int) (rem : List Nat) :
    noWriteAfterBadRead (copyLoop bs rp wp rem).events = true := by
  induction rp generalizing wp rem with
  | nil => rfl
  | cons r rp ih =>
    cases r with
    | rerr => rfl
    | bytes n =>
      cases n with
      | zero => rfl
      | succ m =>
        rw [copyLoop_succ]
        by_cases hw : wp.headD ((m + 1 : Nat) : Int) = ((m + 1 : Nat) : Int)
        · simp only [hw, if_true]
          have h1 : ¬ ((m + 1 : Nat) : Int) ≤ 0 := by
            simp
          simp only [noWriteAfterBadRead, h1, if_false]
          exact ih wp.tail (rem.drop (m + 1))
        · simp only [hw, if_false]
          have h1 : ¬ ((m + 1 : Nat) : Int) ≤ 0 := by
            simp
          simp [noWriteAfterBadRead, h1]
theorem copyLoop_count_eclose (bs : Nat) (rp : List ReadRes) (wp : List Int)
    (rem : List Nat) :
    (copyLoop bs rp wp rem).events.count Ev.eclose = 0 ∧
    (copyLoop bs rp wp rem).events.count Ev.efree = 0 := by
  induction rp generalizing wp rem with
  | nil => exact ⟨rfl, rfl⟩
  | cons r rp ih =>
    cases r with
    | rerr => exact ⟨rfl, rfl⟩
    | bytes n =>
      cases n with
      | zero => exact ⟨rfl, rfl⟩
      | succ m =>
        rw [copyLoop_succ]
        by_cases hw : wp.headD ((m + 1 : Nat) : Int) = ((m + 1 : Nat) : Int)
        · simp only [hw, if_true]
          obtain ⟨ih1, ih2⟩ := ih wp.tail (rem.drop (m + 1))
          constructor
          · simp [List.count_cons, ih1]
          · simp [List.count_cons, ih2]
        · simp only [hw, if_false]
          constructor
          · simp [List.count_cons]
          · simp [List.count_cons]

theorem getLast?_cons_of_ne {α : Type} (a : α) (l : List α) (h : l ≠ []) :
    (a :: l).getLast? = l.getLast? := by
  cases l with
  | nil => exact absurd rfl h
  | cons b t => rfl

theorem copyLoop_short_write (bs : Nat) (rp : List ReadRes) (wp : List Int)
    (rem : List Nat) (q w : Int) (hne : w ≠ q)
    (hmem : Ev.ewrite q w ∈ (copyLoop bs rp wp rem).events) :
    (copyLoop bs rp wp rem).stop = LoopEnd.writeErr ∧
    (copyLoop bs rp wp rem).events.getLast? = some (Ev.ewrite q w) := by
  induction rp generalizing wp rem with
  | nil => exact absurd hmem (by simp [copyLoop])
  | cons r rp ih =>
    cases r with
    | rerr => exact absurd hmem (by simp [copyLoop])
    | bytes n =>
      cases n with
      | zero => exact absurd hmem (by simp [copyLoop])
      | succ m =>
        rw [copyLoop_succ] at hmem ⊢
        by_cases hw : wp.headD ((m + 1 : Nat) : Int) = ((m + 1 : Nat) : Int)
        · simp only [hw, if_true] at hmem ⊢
          cases hmem with
          | tail _ h =>
            cases h with
            | head => exact absurd rfl hne
            | tail _ h =>
              obtain ⟨ih1, ih2⟩ := ih wp.tail (rem.drop (m + 1)) h
              refine ⟨ih1, ?_⟩
              have hnn : (copyLoop bs rp wp.tail (rem.drop (m + 1))).events ≠ [] := by
                intro hnil
                rw [hnil] at h
                exact absurd h (List.not_mem_nil _)
              rw [getLast?_cons_of_ne _ _ (List.cons_ne_nil _ _),
                getLast?_cons_of_ne _ _ hnn, ih2]
        · simp only [hw, if_false] at hmem ⊢
          cases hmem with
          | tail _ h =>
            cases h with
            | head => constructor <;> trivial
            | tail _ h => exact absurd h (List.not_mem_nil _)
/-- Claim C1: for every input file and every buffer size (hence every
BlockSize policy: 1 byte, page size, filesystem-aware, fixed 2 MiB), a run
of the copy loop under a POSIX-conforming read schedule that ends in the
clean end-of-file state has written to standard output a byte stream
identical to the input; in particular the output length equals the input
length, and an empty input yields empty output. -/
theorem copy_success_identity (bs : Nat) (rp : List ReadRes) (wp : List Int)
    (input : List Nat) (hv : ValidReads bs rp input)
    (hs : (copyLoop bs rp wp input).stop = LoopEnd.eof) :
    (copyLoop bs rp wp input).out = input ∧
    (copyLoop bs rp wp input).out.length = input.length ∧
    (input = [] → (copyLoop bs rp wp input).out = []) := by
  have h := copyLoop_eof_out bs rp input hv wp hs
  exact ⟨h, by rw [h], fun he => by rw [h, he]⟩

theorem copy_success_identity_witness :
    (copyLoop 2 [ReadRes.bytes 2, ReadRes.bytes 1, ReadRes.bytes 0]
      [2, 1] [7, 8, 9]).out = [7, 8, 9] := by
  have hv : ValidReads 2
      [ReadRes.bytes 2, ReadRes.bytes 1, ReadRes.bytes 0] [7, 8, 9] :=
    ValidReads.step 2 _ _ (by decide) (by decide) (by decide)
      (ValidReads.step 1 _ _ (by decide) (by decide) (by decide)
        (ValidReads.eof _))
  exact (copy_success_identity 2 _ [2, 1] [7, 8, 9] hv (by decide)).1

/-- Claim C2: for every size ≥ 1 and power-of-two page size, the aligned
address computed by `align_alloc` is page-aligned, lies at least a pointer
width past the raw allocation start, and the usable region of `size` bytes
fits inside the raw allocation of `size + page_size - 1 + ptrBytes` bytes. -/
theorem align_alloc_alignment (size page_size rawStart k : Nat)
    (hsize : 0 < size) (hpow : page_size = 2 ^ k) (hk : k < 64)
    (hraw : 0 < rawStart)
    (hov : rawStart + ptrBytes + page_size - 1 < uintptrMod) :
    align_alloc_addr page_size rawStart % page_size = 0 ∧
    rawStart + ptrBytes ≤ align_alloc_addr page_size rawStart ∧
    align_alloc_addr page_size rawStart + size
      ≤ rawStart + align_alloc_rawSize page_size size := by
  subst hpow
  refine ⟨align_alloc_addr_mod k rawStart hk hov,
    align_alloc_addr_lower k rawStart hk hov, ?_⟩
  have hu := align_alloc_addr_upper k rawStart hk hov
  have h2 : 1 ≤ 2 ^ k := Nat.one_le_two_pow
  have hp : ptrBytes = 8 := rfl
  unfold align_alloc_rawSize
  omega

theorem align_alloc_alignment_witness :
    (0 < 5 ∧ 4096 = 2 ^ 12 ∧ 12 < 64 ∧ 0 < 1000 ∧
      1000 + ptrBytes + 4096 - 1 < uintptrMod) ∧
    (align_alloc_addr 4096 1000 % 4096 = 0 ∧
     1000 + ptrBytes ≤ align_alloc_addr 4096 1000 ∧
     align_alloc_addr 4096 1000 + 5 ≤ 1000 + align_alloc_rawSize 4096 5) :=
  ⟨⟨by decide, by decide, by decide, by decide, by decide⟩,
   align_alloc_alignment 5 4096 1000 12 (by decide) (by decide) (by decide)
     (by decide) (by decide)⟩

/-- Claim C3: the pointer stashed in the `ptrBytes` bytes immediately
preceding the aligned address equals the raw allocation start, `align_free`
on the aligned pointer reads back and frees exactly that raw start, and
`align_free` on a null pointer is a no-op. -/
theorem align_stash_roundtrip (page_size rawStart k : Nat)
    (store : Nat → Option Nat)
    (hpow : page_size = 2 ^ k) (hk : k < 64)
    (hov : rawStart + ptrBytes + page_size - 1 < uintptrMod) :
    (align_alloc page_size rawStart store).2
        ((align_alloc page_size rawStart store).1 - ptrBytes) = some rawStart ∧
    align_free (align_alloc page_size rawStart store).1
        (align_alloc page_size rawStart store).2 = some rawStart ∧
    (∀ st : Nat → Option Nat, align_free 0 st = none) := by
  subst hpow
  have hlow := align_alloc_addr_lower k rawStart hk hov
  have hp : ptrBytes = 8 := rfl
  have hne : align_alloc_addr (2 ^ k) rawStart ≠ 0 := by omega
  refine ⟨?_, ?_, fun st => rfl⟩
  · simp [align_alloc]
  · simp [align_alloc, align_free, hne]

theorem align_stash_roundtrip_witness :
    (4096 = 2 ^ 12 ∧ 12 < 64 ∧ 1000 + ptrBytes + 4096 - 1 < uintptrMod) ∧
    align_free (align_alloc 4096 1000 (fun _ => none)).1
      (align_alloc 4096 1000 (fun _ => none)).2 = some 1000 :=
  ⟨⟨by decide, by decide, by decide⟩,
   (align_stash_roundtrip 4096 1000 12 (fun _ => none) (by decide)
     (by decide) (by decide)).2.1⟩

/-- Claim C4: on every exit path of mycat5's `main` on which both the input
handle and the aligned buffer were acquired, the run closes the handle
exactly once and frees the buffer exactly once. -/
theorem resources_released_exactly_once (env : Env) (input : List Nat)
    (ho : env.openOk = true) (ha : env.allocOk = true) :
    (mycat5_main env input).events.count Ev.eclose = 1 ∧
    (mycat5_main env input).events.count Ev.efree = 1 := by
  obtain ⟨h1, h2⟩ := copyLoop_count_eclose io_blocksize5 env.rp env.wp input
  simp only [mycat5_main, ho, ha, if_true]
  cases hstop : (copyLoop io_blocksize5 env.rp env.wp input).stop <;>
    cases hc : env.closeOk <;>
    simp [hstop, hc, List.count_cons, List.count_append, h1, h2]

theorem resources_released_exactly_once_witness :
    (mycat5_main ⟨true, none, none, true, true, [ReadRes.bytes 0], [], true⟩
      []).events.count Ev.eclose = 1 ∧
    (mycat5_main ⟨true, none, none, true, true, [ReadRes.bytes 0], [], true⟩
      []).events.count Ev.efree = 1 :=
  resources_released_exactly_once _ [] rfl rfl

/-- Claim C5: whenever the copy loop performs a write whose result differs
from the number of bytes just read, the loop is in its terminal failure
state, that write is the last data-path event (no retry), and `main` closes
the handle once, frees the buffer once, and exits non-zero. -/
theorem short_write_is_terminal (env : Env) (input : List Nat) (q w : Int)
    (ho : env.openOk = true) (ha : env.allocOk = true)
    (hq : 0 < q) (hne : w ≠ q)
    (hmem : Ev.ewrite q w ∈ (copyLoop io_blocksize5 env.rp env.wp input).events) :
    (copyLoop io_blocksize5 env.rp env.wp input).stop = LoopEnd.writeErr ∧
    (copyLoop io_blocksize5 env.rp env.wp input).events.getLast?
      = some (Ev.ewrite q w) ∧
    (mycat5_main env input).exitCode = 1 ∧
    (mycat5_main env input).events.count Ev.eclose = 1 ∧
    (mycat5_main env input).events.count Ev.efree = 1 := by
  obtain ⟨h1, h2⟩ :=
    copyLoop_short_write io_blocksize5 env.rp env.wp input q w hne hmem
  obtain ⟨hc1, hc2⟩ := copyLoop_count_eclose io_blocksize5 env.rp env.wp input
  refine ⟨h1, h2, ?_, ?_, ?_⟩ <;>
    simp [mycat5_main, ho, ha, h1, List.count_append, List.count_cons, hc1, hc2]

theorem short_write_is_terminal_witness :
    ((0 : Int) < 2 ∧ (1 : Int) ≠ 2 ∧
      Ev.ewrite 2 1 ∈ (copyLoop io_blocksize5 [ReadRes.bytes 2] [1] [7, 8]).events) ∧
    ((mycat5_main ⟨true, none, none, true, true, [ReadRes.bytes 2], [1], true⟩
        [7, 8]).exitCode = 1) :=
  ⟨⟨by decide, by decide, by decide⟩,
   (short_write_is_terminal
     ⟨true, none, none, true, true, [ReadRes.bytes 2], [1], true⟩
     [7, 8] 2 1 rfl rfl (by decide) (by decide) (by decide)).2.2.1⟩
/-- Claim C6: the FilesystemAware advisor never returns less than the page
size; it returns the filesystem's reported block size when `fstat` succeeds
and the report is at least the page size, and returns the page size when
`fstat` fails or the report is below the page size. -/
theorem io_blocksize4_spec (sysconfRes : Option Nat) (fstatRes : Option Int) :
    (get_system_page_size sysconfRes).1 ≤ io_blocksize4 sysconfRes fstatRes ∧
    (fstatRes = none →
      io_blocksize4 sysconfRes fstatRes = (get_system_page_size sysconfRes).1) ∧
    (∀ b : Int, fstatRes = some b →
      ((get_system_page_size sysconfRes).1 : Int) ≤ b →
      io_blocksize4 sysconfRes fstatRes = b.toNat) ∧
    (∀ b : Int, fstatRes = some b →
      b < ((get_system_page_size sysconfRes).1 : Int) →
      io_blocksize4 sysconfRes fstatRes = (get_system_page_size sysconfRes).1) := by
  cases fstatRes with
  | none =>
    refine ⟨?_, ?_, ?_, ?_⟩
    · simp [io_blocksize4]
    · intro _
      simp [io_blocksize4]
    · intro b hb
      cases hb
    · intro b hb
      cases hb
  | some b =>
    have hmain : io_blocksize4 sysconfRes (some b) =
        if (if 0 < b then b.toNat else (get_system_page_size sysconfRes).1)
            < (get_system_page_size sysconfRes).1
        then (get_system_page_size sysconfRes).1
        else (if 0 < b then b.toNat else (get_system_page_size sysconfRes).1) :=
      rfl
    refine ⟨?_, ?_, ?_, ?_⟩
    · rw [hmain]
      by_cases hb : 0 < b <;> by_cases hlt : b.toNat < (get_system_page_size sysconfRes).1 <;>
        simp [hb, hlt] <;> omega
    · intro h
      cases h
    · intro b' hb' hge
      cases hb'
      rw [hmain]
      by_cases hb : 0 < b <;> by_cases hlt : b.toNat < (get_system_page_size sysconfRes).1 <;>
        simp [hb, hlt] <;> omega
    · intro b' hb' hltp
      cases hb'
      rw [hmain]
      by_cases hb : 0 < b <;> by_cases hlt : b.toNat < (get_system_page_size sysconfRes).1 <;>
        simp [hb, hlt] <;> omega

theorem io_blocksize4_spec_witness :
    (((get_system_page_size (some 4096)).1 : Int) ≤ 65536 ∧
      io_blocksize4 (some 4096) (some 65536) = (65536 : Int).toNat) ∧
    ((some (65536 : Int) : Option Int) ≠ none) :=
  ⟨⟨by decide,
    (io_blocksize4_spec (some 4096) (some 65536)).2.2.1 65536 rfl (by decide)⟩,
   by decide⟩

/-- Claim C7: advisory operations fail soft.  A failed page-size query
returns 4096 and emits a warning; a failed filesystem-block query falls
back to the page size; a failed sequential-access hint (and likewise the
page-size query outcome) never changes mycat6's exit code or output
bytes. -/
theorem advisory_failures_soft :
    get_system_page_size none = (4096, true) ∧
    (∀ s : Option Nat, io_blocksize4 s none = (get_system_page_size s).1) ∧
    io_blocksize2 none = 4096 ∧
    (∀ (env : Env) (input : List Nat) (b₁ b₂ : Bool),
      (mycat6_main { env with fadvOk := b₁ } input).exitCode
        = (mycat6_main { env with fadvOk := b₂ } input).exitCode ∧
      (mycat6_main { env with fadvOk := b₁ } input).out
        = (mycat6_main { env with fadvOk := b₂ } input).out) ∧
    (∀ (env : Env) (input : List Nat) (s₁ s₂ : Option Nat),
      mycat6_main { env with sysconfRes := s₁ } input
        = mycat6_main { env with sysconfRes := s₂ } input) := by
  refine ⟨rfl, fun s => by simp [io_blocksize4], rfl, ?_, ?_⟩
  · intro env input b₁ b₂
    cases env with
    | mk o s f fa a rp wp c =>
      simp only [mycat6_main]
      cases o
      · exact ⟨rfl, rfl⟩
      · cases a
        · exact ⟨rfl, rfl⟩
        · cases hstop : (copyLoop io_blocksize5 rp wp input).stop <;>
            cases c <;> simp [hstop]
  · intro env input s₁ s₂
    cases env
    rfl

/-- Claim C8 counterexample: in mycat2 the buffer is `malloc`ed before the
input file is opened, so on an open failure a resource HAS already been
acquired and is released (one `free` call), contradicting "nothing to
release yet". -/
theorem open_failure_cex :
    (mycat2_main ⟨false, none, none, true, true, [], [], true⟩ []).exitCode = 1 ∧
    (mycat2_main ⟨false, none, none, true, true, [], [], true⟩
      []).events.count Ev.efree = 1 := by
  decide

/-- Claim C8 (amended): when opening the input fails the program exits
non-zero immediately with empty output; in mycat5 (and mycat1/4/6, which
open before allocating) nothing has been acquired, so nothing is released,
while in mycat2 the buffer allocated before the open is freed at that
point. -/
theorem open_failure_behavior (env : Env) (input : List Nat)
    (ho : env.openOk = false) :
    ((mycat5_main env input).exitCode = 1 ∧
     (mycat5_main env input).out = [] ∧
     (mycat5_main env input).events = []) ∧
    (env.allocOk = true →
      (mycat2_main env input).exitCode = 1 ∧
      (mycat2_main env input).out = [] ∧
      (mycat2_main env input).events = [Ev.ealloc, Ev.efree]) := by
  constructor
  · simp [mycat5_main, ho]
  · intro ha
    simp [mycat2_main, ho, ha]

theorem open_failure_behavior_witness :
    (mycat5_main ⟨false, none, none, true, true, [], [], true⟩ []).exitCode = 1 ∧
    (mycat2_main ⟨false, none, none, true, true, [], [], true⟩
      []).events = [Ev.ealloc, Ev.efree] :=
  ⟨(open_failure_behavior ⟨false, none, none, true, true, [], [], true⟩ [] rfl).1.1,
   ((open_failure_behavior ⟨false, none, none, true, true, [], [], true⟩ [] rfl).2 rfl).2.2⟩

/-- Claim C9 (amended): on every run the bytes emitted to standard output
are a prefix of the input; they are exactly the concatenation of the
chunks successfully read whenever the run does not end in a write failure
(a short write delivers only part of the last chunk); and no write is
attempted after a read returns 0 or a negative value. -/
theorem copy_out_front_of_input (bs : Nat) (rp : List ReadRes)
    (wp : List Int) (input : List Nat) :
    (∃ t, (copyLoop bs rp wp input).out ++ t = input) ∧
    noWriteAfterBadRead (copyLoop bs rp wp input).events = true ∧
    ((copyLoop bs rp wp input).stop ≠ LoopEnd.writeErr →
      (copyLoop bs rp wp input).out = (copyLoop bs rp wp input).readBytes) :=
  ⟨copyLoop_out_append bs rp wp input,
   copyLoop_noWrites_after_bad bs rp wp input,
   copyLoop_out_eq_readBytes bs rp wp input⟩

theorem copy_out_front_of_input_witness :
    ((copyLoop 2 [ReadRes.bytes 2, ReadRes.bytes 0] [2] [7, 8]).stop
        ≠ LoopEnd.writeErr) ∧
    (copyLoop 2 [ReadRes.bytes 2, ReadRes.bytes 0] [2] [7, 8]).out
      = (copyLoop 2 [ReadRes.bytes 2, ReadRes.bytes 0] [2] [7, 8]).readBytes :=
  ⟨by decide, (copy_out_front_of_input 2 _ [2] [7, 8]).2.2 (by decide)⟩

/-- Claim C9 counterexample: a write that accepts only 1 of the 2 bytes
just read leaves standard output holding a strict prefix of the chunks
successfully read, so "output = concatenation of the chunks read" fails on
runs that end in a short write. -/
theorem copy_out_not_readBytes_cex :
    (copyLoop 2 [ReadRes.bytes 2] [1] [7, 8]).out
      ≠ (copyLoop 2 [ReadRes.bytes 2] [1] [7, 8]).readBytes := by
  decide

/-- Claim C10: under the POSIX read contract (each read returns between 0
and the requested length, returns 0 exactly at end of input, and each
positive read consumes at least one byte), the copy loop reaches one of its
terminal states — it never exhausts an adequate schedule — and performs at
most `|input| + 1` read iterations. -/
theorem copy_loop_terminates (bs : Nat) (rp : List ReadRes) (wp : List Int)
    (input : List Nat) (hv : ValidReads bs rp input) :
    (copyLoop bs rp wp input).stop ≠ LoopEnd.starved ∧
    countReads (copyLoop bs rp wp input).events ≤ input.length + 1 :=
  copyLoop_terminates_aux bs rp input hv wp

theorem copy_loop_terminates_witness :
    (copyLoop 2 [ReadRes.bytes 2, ReadRes.bytes 1, ReadRes.bytes 0]
        [2, 1] [7, 8, 9]).stop ≠ LoopEnd.starved ∧
    countReads (copyLoop 2 [ReadRes.bytes 2, ReadRes.bytes 1, ReadRes.bytes 0]
        [2, 1] [7, 8, 9]).events ≤ [7, 8, 9].length + 1 := by
  have hv : ValidReads 2
      [ReadRes.bytes 2, ReadRes.bytes 1, ReadRes.bytes 0] [7, 8, 9] :=
    ValidReads.step 2 _ _ (by decide) (by decide) (by decide)
      (ValidReads.step 1 _ _ (by decide) (by decide) (by decide)
        (ValidReads.eof _))
  exact copy_loop_terminates 2 _ [2, 1] [7, 8, 9] hv
